import Mathlib

/-!
Verification development for the `gonc` NETCONF client.

The repository consists of `main.go` (CLI driver, XPath-like filter engine,
XML re-indentation) and a session/framing file (`Endpoint`, `Connect`,
`cliLogin`, `Run`, `Disconnect`, `validateNode`, `validateIpAddress`).

This file gives a shallow embedding of those functions:

* Go standard-library string helpers (`strings.Trim`, `strings.Index`,
  `strings.Split`, `strings.SplitN`, `strings.HasPrefix`, `strings.Contains`,
  `strconv.Atoi`) are modelled over `List Char` / `String`.
* `parseXPathFilter` and `enhancedFilter` are translated directly; the XML
  tokenizer (`encoding/xml.Decoder`) is abstracted as a list of tokens
  (start element / end element / character data), which is exactly the event
  interface the Go loop consumes.  A Go runtime panic (index out of range)
  is modelled by returning `none`.
* The framing read loop shared by `cliLogin` and `Run` is modelled over a
  list of read events (a data chunk, or a non-EOF read fault); end of the
  list models `io.EOF`.  `log.Fatalf` (process termination) is modelled by
  a dedicated `fatal` outcome, distinct from a returned error value.
-/

/-! ## Go string primitives -/

/-- Boolean test that `pre` is a prefix of `l` (Go `strings.HasPrefix` on
    byte slices, modelled on char lists). -/
def listStartsWith (l pre : List Char) : Bool :=
  match l, pre with
  | _, [] => true
  | [], _ :: _ => false
  | a :: as, b :: bs => a == b && listStartsWith as bs

/-- Boolean test that `sub` occurs contiguously inside `l`
    (Go `strings.Contains` / `bytes.Contains`). -/
def hasSub (sub : List Char) : List Char → Bool
  | [] => listStartsWith [] sub
  | c :: t => listStartsWith (c :: t) sub || hasSub sub t

/-- Go `strings.Contains(s, sub)`. -/
def goContains (s sub : String) : Bool :=
  hasSub sub.toList s.toList

/-- Go `strings.HasPrefix(s, pre)`. -/
def goStartsWith (s pre : String) : Bool :=
  listStartsWith s.toList pre.toList

/-- Go `strings.HasSuffix(s, suf)`. -/
def goHasSuffix (s suf : String) : Bool :=
  listStartsWith s.toList.reverse suf.toList.reverse

/-- Go `strings.Trim(s, cutset)`: remove all leading and trailing characters
    of `cutset`. -/
def cutsetTrim (cutset : List Char) (s : List Char) : List Char :=
  ((s.dropWhile (· ∈ cutset)).reverse.dropWhile (· ∈ cutset)).reverse

/-- Go `strings.Index(s, sep)` for a one-character separator: the index of the
    first occurrence, `none` for Go's `-1`. -/
def goIndexChar (c : Char) : List Char → Option Nat
  | [] => none
  | a :: t => if a == c then some 0 else (goIndexChar c t).map (· + 1)

/-- Go `strings.Split(s, sep)` for a one-character separator.  On the empty
    string it returns `[[]]` (a single empty field), exactly as Go does; the
    result is never the empty list. -/
def goSplitChar (sep : Char) : List Char → List (List Char)
  | [] => [[]]
  | c :: rest =>
    let r := goSplitChar sep rest
    if c == sep then [] :: r
    else
      match r with
      | h :: t => (c :: h) :: t
      | [] => [[c]]

/-- Go `strings.SplitN(s, sep, 2)` for a one-character separator: split at the
    first occurrence only. -/
def goSplitN2 (sep : Char) (s : List Char) : List (List Char) :=
  match goIndexChar sep s with
  | none => [s]
  | some i => [s.take i, s.drop (i + 1)]

/-- Go `strings.TrimPrefix(s, pre)`: drop `pre` once if it is a prefix. -/
def goStripLeading (pre s : List Char) : List Char :=
  if listStartsWith s pre then s.drop pre.length else s

/-- Go `strings.TrimSuffix(s, suf)`: drop `suf` once if it is a suffix. -/
def goStripTrailing (suf s : List Char) : List Char :=
  if listStartsWith s.reverse suf.reverse then s.take (s.length - suf.length) else s

/-- Concatenation of a list of strings (Go repeated `+=` / `strings.Join`
    with empty separator). -/
def strConcat : List String → String
  | [] => ""
  | s :: t => s ++ strConcat t

example : goContains "abc]]>]]>def" "]]>]]>" = true := by decide
example : goContains "abc]]>]]" "]]>]]>" = false := by decide
example : cutsetTrim ['/', ' '] "  /a/b/ ".toList = "a/b".toList := by decide
example : goSplitChar '/' "a/b".toList = ["a".toList, "b".toList] := by decide
example : goSplitChar '/' "".toList = [[]] := by decide
example : goSplitN2 ',' "x,'y',z".toList = ["x".toList, "'y',z".toList] := by decide

/-! ## parseXPathFilter (main.go) -/

/-- The literal `"start-with("` used by `parseXPathFilter`. -/
def swHead : List Char := "start-with(".toList

/-- Shallow embedding of `parseXPathFilter` (main.go).  Returns
    `(predicate, path)` on success, or the error message.  Every `strings`
    call of the Go body is mirrored by the corresponding helper above. -/
def parseXPathFilter (filter : String) : Except String (List String × List String) :=
  let f := cutsetTrim ['/', ' '] filter.toList
  match goIndexChar '[' f with
  | none => .error "no predicate found in filter"
  | some startIdx =>
    let pathStr := f.take startIdx
    let predicateStr := f.drop startIdx
    let path := goSplitChar '/' pathStr
    if path.length = 0 then .error "empty path"
    else
      let p1 := cutsetTrim ['[', ']'] predicateStr
      if listStartsWith p1 swHead then
        let argsStr := goStripTrailing [')'] (goStripLeading swHead p1)
        match goSplitN2 ',' argsStr with
        | [a, b] =>
          .ok ([String.mk a, String.mk (cutsetTrim ['\'', '"'] b)], path.map String.mk)
        | _ => .error ("invalid start-with predicate: " ++ String.mk p1)
      else
        .ok ([String.mk p1], path.map String.mk)

example : parseXPathFilter "/a/b/c" = .error "no predicate found in filter" := rfl
example : parseXPathFilter "[start-with(x,'y')]" = .ok (["x", "y"], [""]) := rfl
example : parseXPathFilter "/root/ch[start-with(name,'1')]"
    = .ok (["name", "1"], ["root", "ch"]) := rfl
example : parseXPathFilter "/a/b[foo]" = .ok (["foo"], ["a", "b"]) := rfl

/-! ## Filter engine (enhancedFilter, main.go) -/

/-- One event of Go's `encoding/xml` token stream, as consumed by the
    `enhancedFilter` loop: `xml.StartElement` (local name and local-name
    attributes), `xml.EndElement`, `xml.CharData`. -/
inductive XmlToken where
  | start (name : String) (attrs : List (String × String))
  | close (name : String)
  | chardata (s : String)
deriving DecidableEq

/-- `xmlMarshalStartElement` (main.go): renders `<name attr="v"...>`. -/
def xmlMarshalStartElement (name : String) (attrs : List (String × String)) : String :=
  "<" ++ name ++ strConcat (attrs.map (fun a => " " ++ a.1 ++ "=\"" ++ a.2 ++ "\"")) ++ ">"

/-- The local variables of the `enhancedFilter` token loop. -/
structure EngineState where
  output : String
  current : String
  inChannel : Bool
  keepChannel : Bool
  depth : Nat
  stack : List String
deriving DecidableEq

/-- The state at the top of the loop: empty buffers, outside any channel. -/
def initEngineState : EngineState := ⟨"", "", false, false, 0, []⟩

/-- The token loop of `enhancedFilter` (main.go).  The shadow
    `stack` keeps the most recently opened tag at the head (Go appends at the
    end and force-closes from the end backwards, which is the same order).
    When a start tag named `"index"` is seen inside the channel, the Go code
    pulls the NEXT token directly from the decoder: if it is character data it
    is appended (setting `keepChannel` on a prefix hit), any other token is
    silently dropped, and at end of input the inner read gets nothing and the
    outer loop then terminates. -/
def engineRun (target lit : String) : List XmlToken → EngineState → EngineState
  | [], st => st
  | .start name attrs :: rest, st =>
    if name = target ∧ st.inChannel = false then
      engineRun target lit rest
        { st with inChannel := true, depth := 1,
                  current := xmlMarshalStartElement name attrs }
    else if st.inChannel then
      let st1 := { st with depth := st.depth + 1,
                           current := st.current ++ xmlMarshalStartElement name attrs }
      if name = "index" then
        match rest with
        | .chardata v :: rest2 =>
          engineRun target lit rest2
            { st1 with
              keepChannel := if goStartsWith v lit then true else st1.keepChannel,
              current := st1.current ++ v }
        | _ :: rest2 => engineRun target lit rest2 st1
        | [] => st1
      else
        engineRun target lit rest st1
    else
      engineRun target lit rest
        { st with output := st.output ++ xmlMarshalStartElement name attrs,
                  stack := name :: st.stack }
  | .close name :: rest, st =>
    if st.inChannel then
      let cur := st.current ++ "</" ++ name ++ ">"
      let d := st.depth - 1
      if d = 0 then
        engineRun target lit rest
          { st with
            output := if st.keepChannel then st.output ++ cur ++ "\n" else st.output,
            current := cur, inChannel := false, keepChannel := false, depth := 0 }
      else
        engineRun target lit rest { st with current := cur, depth := d }
    else
      match st.stack with
      | [] => engineRun target lit rest st
      | _ :: tl =>
        engineRun target lit rest
          { st with output := st.output ++ "</" ++ name ++ ">\n", stack := tl }
  | .chardata s :: rest, st =>
    if st.inChannel then
      engineRun target lit rest { st with current := st.current ++ s }
    else
      engineRun target lit rest { st with output := st.output ++ s }

/-- After the token loop: force-close every tag still on the shadow stack
    (main.go, the `for i := len(stack) - 1; ...` loop). -/
def engineFinish (st : EngineState) : String :=
  st.output ++ strConcat (st.stack.map (fun n => "</" ++ n ++ ">\n"))

/-- Go `unicode.IsSpace` on the characters `strings.TrimSpace` can meet in
    this ASCII protocol. -/
def isGoSpace (c : Char) : Bool :=
  c == ' ' || c == '\t' || c == '\n' || c == Char.ofNat 11 || c == Char.ofNat 12 || c == '\r'

/-- Go `strings.TrimSpace`. -/
def goTrimSpace (l : List Char) : List Char :=
  ((l.dropWhile isGoSpace).reverse.dropWhile isGoSpace).reverse

/-- Go `strings.Join(lines, "\n")`. -/
def joinLines : List (List Char) → List Char
  | [] => []
  | [l] => l
  | l :: rest => l ++ '\n' :: joinLines rest

/-- `formatXML` (main.go): its first pass copies every input byte unchanged
    (the `indent` counter it maintains is never used for output), then it
    drops every line that is empty after `strings.TrimSpace` and rejoins with
    newlines. -/
def formatXML (data : String) : String :=
  String.mk (joinLines
    ((goSplitChar '\n' data.toList).filter (fun line => ¬ (goTrimSpace line).isEmpty)))

/-- The body of `enhancedFilter` after a successful parse: run the token
    loop with the last path segment as target and `predicate[1]` as the
    prefix literal, then re-indent. -/
def runEngine (tokens : List XmlToken) (target lit : String) : String :=
  formatXML (engineFinish (engineRun target lit tokens initEngineState))

/-- `enhancedFilter` (main.go), over the token stream of its `xmlData`
    argument.  On a parse error it prints the error and returns `""`.
    Otherwise it reads `path[len(path)-1]` and `predicate[1]`; a Go
    index-out-of-range panic (e.g. `predicate[1]` on a one-element predicate)
    is modelled as `none`. -/
def enhancedFilter (tokens : List XmlToken) (filter : String) : Option String :=
  match parseXPathFilter filter with
  | .error _ => some ""
  | .ok (predicate, path) =>
    match path.getLast?, predicate.get? 1 with
    | some target, some lit => some (runEngine tokens target lit)
    | _, _ => none

/-- The post-reply stage of `main` (main.go): if a filter was
    given, the reply is replaced by the result of `enhancedFilter`. -/
def finalOutput (reply : String) (tokens : List XmlToken) (filter : String) : Option String :=
  if filter = "" then some reply else enhancedFilter tokens filter

/-! ## Session and framing (Endpoint, Connect, cliLogin, Run) -/

/-- The six-character end-of-message sentinel `]]>]]>`. -/
def sentinel : String := "]]>]]>"

/-- One result of `s.SshOut.Read(buf)`: a chunk of data (`n > 0`, no error),
    or a non-EOF read fault.  `io.EOF` is modelled by the end of the event
    list: a closed stream returns EOF to every further read. -/
inductive ReadEvent where
  | chunk (s : String)
  | fault
deriving DecidableEq

/-- Outcome of the read-until-sentinel loop: the accumulated buffer, or the
    `log.Fatalf` taken on a non-EOF read error. -/
inductive ReadOutcome where
  | got (s : String)
  | failed
deriving DecidableEq

/-- The read loop shared verbatim by `cliLogin` and `Run`:
    accumulate each chunk into the buffer, after each chunk test whether the
    whole buffer contains the sentinel (`bytes.Contains`), stop at the first
    hit or at EOF; a non-EOF read error hits `log.Fatalf`.  Returns the
    outcome together with the events left unread on the stream. -/
def readLoopFrom : List ReadEvent → String → ReadOutcome × List ReadEvent
  | [], buf => (.got buf, [])
  | .chunk s :: rest, buf =>
    let buf1 := buf ++ s
    if goContains buf1 sentinel then (.got buf1, rest) else readLoopFrom rest buf1
  | .fault :: rest, _ => (.failed, rest)

/-- What the Go `Run` returns: its `(string, error)` pair collapses to `ok`
    (the error result is always `nil` in the source) or `err` (never produced
    by `Run`, present so that "returns a typed error" is expressible), and
    `fatal` models `log.Fatalf` terminating the process. -/
inductive RunResult where
  | ok (reply : String)
  | err (msg : String)
  | fatal
deriving DecidableEq

/-- Whether a `RunResult` is a typed error returned to the caller. -/
def RunResult.isTypedErr : RunResult → Bool
  | .err _ => true
  | _ => false

/-- The payload `Run` actually writes: the sentinel is appended iff the
    substring check `strings.Contains(arg, "]]>]]>")` fails. -/
def runPayload (arg : String) : String :=
  if goContains arg sentinel then arg else arg ++ sentinel

/-- The duplex byte streams of the command channel: the inbound events not
    yet read, and the outbound writes so far (in order). -/
structure Wire where
  input : List ReadEvent
  writes : List String
deriving DecidableEq

/-- `Run` (session file): append the sentinel if absent, write the
    payload, then read until sentinel / EOF; a write fault or a non-EOF read
    fault is `log.Fatalf`. -/
def RunM (arg : String) (w : Wire) : RunResult × Wire :=
  let a := runPayload arg
  match readLoopFrom w.input "" with
  | (.got s, rest) => (.ok s, ⟨rest, w.writes ++ [a]⟩)
  | (.failed, rest) => (.fatal, ⟨rest, w.writes ++ [a]⟩)

/-- The session object (Go `Endpoint` struct); the `ssh` handles are replaced
    by the explicit `Wire` threaded through the calls. -/
structure Endpoint where
  ip : String
  username : String
  password : String
  privKeyPath : String
  port : String
  timeout : Int
  capabilities : String
deriving DecidableEq

/-- Go `strconv.Atoi`: optional sign, then one or more decimal digits
    (the int64 range check is irrelevant at the sizes used here). -/
def goAtoi (s : String) : Option Int :=
  let (sign, digits) :=
    match s.toList with
    | '+' :: t => ((1 : Int), t)
    | '-' :: t => ((-1 : Int), t)
    | t => ((1 : Int), t)
  if digits.isEmpty then none
  else if digits.all (fun c => c.isDigit) then
    some (sign * (digits.foldl (fun n c => n * 10 + (c.toNat - 48)) 0 : Nat))
  else none

/-- `validateIpAddress` (session file): exactly four dot-separated
    segments, each an integer in `0..255`; first offending segment wins. -/
def validateIpAddress (ip : String) : Except String Unit :=
  let ipSegments := goSplitChar '.' ip.toList
  if ipSegments.length ≠ 4 then
    .error ("provided ip: " ++ ip ++ " - ip address is not formatted properly")
  else
    (ipSegments.map String.mk).foldr
      (fun seg acc =>
        match goAtoi seg with
        | none => .error ("provided ip: " ++ ip ++ " - ip address includes wrong values: " ++ seg)
        | some num =>
          if num < 0 ∨ num > 255 then
            .error ("provided ip: " ++ ip ++ " - ip address includes wrong values: " ++ seg)
          else acc)
      (.ok ())

/-- `validateNode` (session file): unconditionally set `Timeout = 30`,
    validate the IP (fatal error), and fall back to port `"22"` with a
    logged warning when the port is not numeric. -/
def validateNode (e : Endpoint) : Except String Endpoint :=
  let e1 := { e with timeout := 30 }
  match validateIpAddress e1.ip with
  | .error m => .error m
  | .ok _ =>
    match goAtoi e1.port with
    | none => .ok { e1 with port := "22" }
    | some _ => .ok e1

example : validateIpAddress "10.10.10.10" = .ok () := rfl
example : validateIpAddress "10.10.10.256"
    = .error "provided ip: 10.10.10.256 - ip address includes wrong values: 256" := rfl
example : goAtoi "830" = some 830 := rfl
example : goAtoi "83a" = none := rfl

/-- The raw hello message written by `cliLogin` (exact source literal,
    sentinel included). -/
def helloMsg : String :=
  "<?xml version=\"1.0\" encoding=\"UTF-8\"?>\n\t<hello xmlns=\"urn:ietf:params:xml:ns:netconf:base:1.0\">\n\t  <capabilities>\n\t\t<capability>urn:ietf:params:netconf:base:1.0</capability>\n\t  </capabilities>\n\t</hello>]]>]]>"

/-- The hello payload `Connect` passes to `Run` (exact source literal,
    sentinel included). -/
def helloPayload : String :=
  "\n\t<hello xmlns=\"urn:ietf:params:xml:ns:netconf:base:1.0\">\n  \t\t<capabilities>\n    \t\t<capability>urn:ietf:params:netconf:base:1.0</capability>\n  \t\t</capabilities>\n\t</hello>\n\t]]>]]>"

/-- Behaviour of the external ssh layer for one `Connect` attempt:
    whether `ssh.Dial` fails (and with what message), whether
    `Client.NewSession` fails, and whether the `netconf` subsystem request
    is refused. -/
structure SshParams where
  dialErr : Option String
  newSessionErr : Option String
  subsysRefused : Bool
deriving DecidableEq

/-- Result of a session-layer step: a normal return carrying the updated
    session and wire, an error returned to the caller, or `log.Fatalf`. -/
inductive StepRes where
  | ok (e : Endpoint) (w : Wire)
  | err (msg : String)
  | fatal
deriving DecidableEq

/-- `cliLogin` (session file): open a session (typed error mentioning
    `ip:port` on failure), request the `netconf` subsystem (`log.Fatalf` if
    refused), write the raw hello message, read until sentinel (non-EOF fault
    is `log.Fatalf`), and store the read text verbatim in `Capabilities`. -/
def cliLogin (e : Endpoint) (p : SshParams) (w : Wire) : StepRes :=
  match p.newSessionErr with
  | some m =>
    .err (e.ip ++ ":" ++ e.port ++ " - failure on Client.NewSession() - details: " ++ m)
  | none =>
    if p.subsysRefused then .fatal
    else
      let w1 : Wire := ⟨w.input, w.writes ++ [helloMsg]⟩
      match readLoopFrom w1.input "" with
      | (.got caps, rest) => .ok { e with capabilities := caps } ⟨rest, w1.writes⟩
      | (.failed, _) => .fatal

/-- The `ssh.ClientConfig` fields the source populates before dialing. -/
structure ClientConfig where
  user : String
  timeout : Int
deriving DecidableEq

/-- The config `Connect` builds after `validateNode` and hands to
    `ssh.Dial` (`Timeout: time.Duration(s.Timeout) * time.Second`). -/
def buildConfig (e : Endpoint) : ClientConfig :=
  { user := e.username, timeout := e.timeout }

/-- The dial config actually used by `Connect` for a given initial session
    value: `none` when `validateNode` rejects the node before dialing. -/
def connectConfig (e : Endpoint) : Option ClientConfig :=
  match validateNode e with
  | .error _ => none
  | .ok e1 => some (buildConfig e1)

/-- `Connect` (session file): `validateNode`, dial (typed error
    `"ip:port - err"` on failure), `cliLogin`, then send the hello payload
    through `Run`, discarding `Run`'s results. -/
def Connect (e : Endpoint) (p : SshParams) (w : Wire) : StepRes :=
  match validateNode e with
  | .error m => .err m
  | .ok e1 =>
    match p.dialErr with
    | some m => .err (e1.ip ++ ":" ++ e1.port ++ " - " ++ m)
    | none =>
      match cliLogin e1 p w with
      | .err m => .err m
      | .fatal => .fatal
      | .ok e2 w2 =>
        match RunM helloPayload w2 with
        | (.fatal, _) => .fatal
        | (_, w3) => .ok e2 w3

set_option maxRecDepth 4000 in
example : goContains helloMsg sentinel = true := rfl
set_option maxRecDepth 4000 in
example : goContains helloPayload sentinel = true := rfl
set_option maxRecDepth 4000 in
example : runPayload helloPayload = helloPayload := rfl

/-! ## Canonical documents for the filter-engine theorems

A candidate document family mirroring the spec's running example: a wrapper
element containing repeated target subtrees, each subtree a list of flat
fields `(name, value)` rendered as `<name>value</name>`. -/

/-- Token stream of one flat field `<name>value</name>`. -/
def fieldTokens (p : String × String) : List XmlToken :=
  [.start p.1 [], .chardata p.2, .close p.1]

/-- Token stream of one candidate target subtree. -/
def chanTokens (target : String) (fields : List (String × String)) : List XmlToken :=
  .start target [] :: ((fields.map fieldTokens).flatten ++ [.close target])

/-- Token stream of a whole document: a wrapper element around the candidate
    subtrees. -/
def docTokens (root target : String) (chans : List (List (String × String))) : List XmlToken :=
  .start root [] :: ((chans.map (chanTokens target)).flatten ++ [.close root])

/-- Text of one flat field. -/
def renderField (p : String × String) : String :=
  "<" ++ p.1 ++ ">" ++ p.2 ++ "</" ++ p.1 ++ ">"

/-- Text of one candidate subtree. -/
def renderChan (target : String) (fields : List (String × String)) : String :=
  "<" ++ target ++ ">" ++ strConcat (fields.map renderField) ++ "</" ++ target ++ ">"

/-- The keep condition the code actually implements on such a subtree: some
    field is literally named `"index"` and its value starts with the
    predicate literal. -/
def keepPred (lit : String) (fields : List (String × String)) : Bool :=
  fields.any (fun p => p.1 == "index" && goStartsWith p.2 lit)

/-- State after the engine has consumed one whole candidate subtree from a
    state outside any subtree with `keepChannel = false`. -/
def afterChanState (target lit : String) (st : EngineState)
    (fields : List (String × String)) : EngineState :=
  ⟨if keepPred lit fields then st.output ++ renderChan target fields ++ "\n" else st.output,
   renderChan target fields, false, false, 0, st.stack⟩

/-! ## Behaviour of the engine loop on the document family -/

/-- Inside a candidate subtree (`inChannel` set, depth at least 1), consuming
    a run of flat fields appends their rendered text to the collecting buffer
    and ors the `"index"`-based keep condition into `keepChannel`; depth,
    output and stack are untouched. -/
theorem engineRun_fields (target lit : String) (fields : List (String × String)) :
    ∀ (rest : List XmlToken) (st : EngineState), st.inChannel = true → 1 ≤ st.depth →
    engineRun target lit ((fields.map fieldTokens).flatten ++ rest) st =
    engineRun target lit rest
      { st with current := st.current ++ strConcat (fields.map renderField),
                keepChannel := st.keepChannel || keepPred lit fields } := by
  induction fields with
  | nil =>
    intro rest st h hd
    simp [keepPred, strConcat, String.append_empty]
  | cons p tl ih =>
    intro rest st h hd
    obtain ⟨n, v⟩ := p
    by_cases hn : n = "index"
    · subst hn
      simp only [List.map_cons, List.flatten_cons, fieldTokens, List.cons_append,
        List.append_assoc]
      rw [engineRun]
      simp only [h]
      simp only [Bool.true_eq_false, and_false, if_false, if_true, List.nil_append]
      rw [engineRun]
      simp only [if_pos rfl]
      have hne : ¬ (st.depth + 1 - 1 = 0) := by omega
      simp only [Nat.add_sub_cancel] at hne ⊢
      rw [if_neg hne]
      rw [ih _ _ rfl (by simpa using hd)]
      simp only [EngineState.mk.injEq, xmlMarshalStartElement, renderField, keepPred,
        List.any_cons, strConcat, String.append_assoc, String.append_empty, List.map_nil,
        if_true]
      congr 1
      simp only [EngineState.mk.injEq, true_and, and_true]
      by_cases hk : goStartsWith v lit = true <;>
        simp [hk, Bool.or_comm, Bool.or_assoc, Bool.or_left_comm]
    · simp only [List.map_cons, List.flatten_cons, fieldTokens, List.cons_append,
        List.append_assoc]
      rw [engineRun]
      simp only [h, Bool.true_eq_false, and_false, if_false, if_true, List.nil_append,
        if_neg hn]
      rw [engineRun]
      simp only [if_true]
      rw [engineRun]
      simp only [if_true]
      have hne : ¬ (st.depth + 1 - 1 = 0) := by omega
      simp only [Nat.add_sub_cancel] at hne ⊢
      rw [if_neg hne]
      rw [ih _ _ rfl (by simpa using hd)]
      simp only [EngineState.mk.injEq, xmlMarshalStartElement, renderField, keepPred,
        List.any_cons, strConcat, String.append_assoc, String.append_empty, List.map_nil,
        if_true]
      congr 1
      have hb : (n == "index") = false := beq_eq_false_iff_ne.mpr hn
      simp [hb]

/-- Consuming one whole candidate subtree from outside (with `keepChannel`
    reset) flushes its rendered text followed by a newline exactly when the
    `"index"` keep condition holds, and returns to the outside state. -/
theorem engineRun_chan (target lit : String) (fields : List (String × String))
    (rest : List XmlToken) (st : EngineState)
    (h : st.inChannel = false) (hk : st.keepChannel = false) :
    engineRun target lit (chanTokens target fields ++ rest) st =
    engineRun target lit rest (afterChanState target lit st fields) := by
  simp only [chanTokens, List.cons_append, List.append_assoc, List.singleton_append]
  rw [engineRun]
  simp only [h, and_true, if_pos rfl]
  rw [engineRun_fields target lit fields _ _ rfl (by simp)]
  rw [engineRun]
  simp only [if_true, hk, Bool.false_or]
  norm_num
  simp only [afterChanState, renderChan, xmlMarshalStartElement, strConcat,
    String.append_assoc, String.append_empty, List.map_nil]

/-- Consuming a run of candidate subtrees folds `afterChanState` over them. -/
theorem engineRun_chans (target lit : String) (chans : List (List (String × String))) :
    ∀ (rest : List XmlToken) (st : EngineState),
    st.inChannel = false → st.keepChannel = false →
    engineRun target lit ((chans.map (chanTokens target)).flatten ++ rest) st =
    engineRun target lit rest (chans.foldl (afterChanState target lit) st) := by
  induction chans with
  | nil => intro rest st h hk; simp
  | cons c cs ih =>
    intro rest st h hk
    simp only [List.map_cons, List.flatten_cons, List.append_assoc, List.foldl_cons]
    rw [engineRun_chan target lit c _ _ h hk]
    exact ih _ _ rfl rfl

/-- The fold appends exactly the kept subtrees (each with a trailing newline)
    to the output. -/
theorem foldl_afterChanState_output (target lit : String)
    (chans : List (List (String × String))) :
    ∀ st : EngineState,
    (chans.foldl (afterChanState target lit) st).output =
      st.output ++ strConcat ((chans.filter (keepPred lit)).map
        (fun c => renderChan target c ++ "\n")) := by
  induction chans with
  | nil => intro st; simp [strConcat]
  | cons c cs ih =>
    intro st
    simp only [List.foldl_cons, List.filter_cons]
    rw [ih]
    by_cases hk : keepPred lit c <;>
      simp [hk, afterChanState, strConcat, String.append_assoc, String.append_empty]

/-- The fold leaves the shadow stack unchanged. -/
theorem foldl_afterChanState_stack (target lit : String)
    (chans : List (List (String × String))) :
    ∀ st : EngineState,
    (chans.foldl (afterChanState target lit) st).stack = st.stack := by
  induction chans with
  | nil => intro st; simp
  | cons c cs ih => intro st; simp only [List.foldl_cons]; rw [ih]; rfl

/-- The fold ends outside any subtree. -/
theorem foldl_afterChanState_flags (target lit : String)
    (chans : List (List (String × String))) :
    ∀ st : EngineState, st.inChannel = false →
    (chans.foldl (afterChanState target lit) st).inChannel = false := by
  induction chans with
  | nil => intro st h; simpa using h
  | cons c cs ih => intro st h; simp only [List.foldl_cons]; exact ih _ rfl

/-- Full engine run on a wrapper document: the wrapper tags pass through and
    exactly the subtrees satisfying the `"index"` keep condition survive. -/
theorem engine_on_docTokens (root target lit : String)
    (chans : List (List (String × String))) (hroot : root ≠ target) :
    engineFinish (engineRun target lit (docTokens root target chans) initEngineState) =
    "<" ++ root ++ ">" ++
      strConcat ((chans.filter (keepPred lit)).map (fun c => renderChan target c ++ "\n")) ++
      "</" ++ root ++ ">\n" := by
  simp only [docTokens]
  rw [engineRun]
  simp only [initEngineState]
  rw [if_neg (by simp [hroot]), if_neg (by simp)]
  rw [engineRun_chans target lit chans _ _ rfl rfl]
  rw [engineRun]
  rw [if_neg (by rw [foldl_afterChanState_flags target lit chans _ rfl]; simp)]
  rw [foldl_afterChanState_stack target lit chans]
  simp only []
  rw [engineRun]
  simp only [engineFinish, foldl_afterChanState_output target lit chans,
    foldl_afterChanState_stack target lit chans]
  simp [xmlMarshalStartElement, strConcat, String.append_assoc, String.append_empty,
    String.empty_append]

/-! ## Substring and read-loop lemmas -/

/-- A prefix of `l` is still a prefix after appending on the right. -/
theorem listStartsWith_append (l t sub : List Char) :
    listStartsWith l sub = true → listStartsWith (l ++ t) sub = true := by
  induction sub generalizing l with
  | nil => intro _; simp [listStartsWith]
  | cons b bs ih =>
    intro h
    cases l with
    | nil => simp [listStartsWith] at h
    | cons a as =>
      rw [listStartsWith] at h
      simp only [List.cons_append]
      rw [listStartsWith]
      rw [Bool.and_eq_true] at h ⊢
      exact ⟨h.1, ih as h.2⟩

/-- An occurrence survives appending on the right. -/
theorem hasSub_append_right (sub l t : List Char) :
    hasSub sub l = true → hasSub sub (l ++ t) = true := by
  induction l with
  | nil =>
    intro h
    rw [hasSub] at h
    cases sub with
    | nil => cases t with
      | nil => simp [hasSub, listStartsWith]
      | cons c cs => simp [hasSub, listStartsWith]
    | cons b bs => simp [listStartsWith] at h
  | cons c cs ih =>
    intro h
    rw [hasSub] at h
    rw [List.cons_append, hasSub]
    rw [Bool.or_eq_true] at h ⊢
    rcases h with h1 | h2
    · exact Or.inl (by simpa using listStartsWith_append (c :: cs) t sub h1)
    · exact Or.inr (ih h2)

/-- `strings.Contains` is monotone under appending on the right. -/
theorem goContains_append_right (s t sub : String) :
    goContains s sub = true → goContains (s ++ t) sub = true := by
  intro h
  simp only [goContains, String.toList, String.data_append] at h ⊢
  exact hasSub_append_right _ _ _ h

/-- A prefix occurrence is an occurrence. -/
theorem hasSub_of_listStartsWith (sub l : List Char) :
    listStartsWith l sub = true → hasSub sub l = true := by
  cases l with
  | nil => intro h; rw [hasSub]; exact h
  | cons c t => intro h; rw [hasSub, Bool.or_eq_true]; exact Or.inl h

/-- A string occurs in any right extension of itself. -/
theorem goContains_append_self (s t : String) :
    goContains (s ++ t) s = true := by
  simp only [goContains, String.toList, String.data_append]
  apply hasSub_of_listStartsWith
  have : listStartsWith s.data s.data = true := by
    induction s.data with
    | nil => simp [listStartsWith]
    | cons a as ih => rw [listStartsWith, Bool.and_eq_true]; exact ⟨by simp, ih⟩
  exact listStartsWith_append _ _ _ this

/-- With no sentinel anywhere, the read loop consumes the whole stream and
    returns everything read (the EOF case). -/
theorem readLoop_no_hit (chunks : List String) :
    ∀ buf : String, goContains (buf ++ strConcat chunks) sentinel = false →
    readLoopFrom (chunks.map ReadEvent.chunk) buf = (.got (buf ++ strConcat chunks), []) := by
  induction chunks with
  | nil => intro buf h; simp [readLoopFrom, strConcat, String.append_empty]
  | cons c cs ih =>
    intro buf h
    have hmono : goContains (buf ++ c) sentinel = false := by
      by_contra hc
      have hc' : goContains (buf ++ c) sentinel = true := by
        cases hgc : goContains (buf ++ c) sentinel
        · exact absurd hgc hc
        · rfl
      have := goContains_append_right (buf ++ c) (strConcat cs) sentinel hc'
      rw [String.append_assoc] at this
      rw [show buf ++ (c ++ strConcat cs) = buf ++ strConcat (c :: cs) from rfl] at this
      rw [h] at this
      exact Bool.false_ne_true this
    simp only [List.map_cons, readLoopFrom, hmono, if_false]
    rw [ih (buf ++ c) (by rwa [String.append_assoc, show buf ++ (c ++ strConcat cs) = buf ++ strConcat (c :: cs) from rfl])]
    rw [String.append_assoc]
    rfl

/-- A read fault reached before any sentinel is seen takes the `log.Fatalf`
    path. -/
theorem readLoop_fault (chunks : List String) :
    ∀ (rest : List ReadEvent) (buf : String),
    goContains (buf ++ strConcat chunks) sentinel = false →
    readLoopFrom (chunks.map ReadEvent.chunk ++ ReadEvent.fault :: rest) buf
      = (.failed, rest) := by
  induction chunks with
  | nil => intro rest buf h; simp [readLoopFrom]
  | cons c cs ih =>
    intro rest buf h
    have hmono : goContains (buf ++ c) sentinel = false := by
      by_contra hc
      have hc' : goContains (buf ++ c) sentinel = true := by
        cases hgc : goContains (buf ++ c) sentinel
        · exact absurd hgc hc
        · rfl
      have := goContains_append_right (buf ++ c) (strConcat cs) sentinel hc'
      rw [String.append_assoc] at this
      rw [show buf ++ (c ++ strConcat cs) = buf ++ strConcat (c :: cs) from rfl] at this
      rw [h] at this
      exact Bool.false_ne_true this
    simp only [List.map_cons, List.cons_append, readLoopFrom, hmono, if_false]
    exact ih rest (buf ++ c) (by rwa [String.append_assoc, show buf ++ (c ++ strConcat cs) = buf ++ strConcat (c :: cs) from rfl])

/-- The read loop stops after the first chunk whose arrival makes the
    accumulated buffer contain the sentinel, and returns that buffer. -/
theorem readLoop_first_hit (chunks : List String) :
    ∀ (m : Nat) (buf : String), m ≤ chunks.length →
    goContains buf sentinel = false →
    goContains (buf ++ strConcat (chunks.take m)) sentinel = true →
    (∀ j, j < m → goContains (buf ++ strConcat (chunks.take j)) sentinel = false) →
    readLoopFrom (chunks.map ReadEvent.chunk) buf =
      (.got (buf ++ strConcat (chunks.take m)), (chunks.map ReadEvent.chunk).drop m) := by
  induction chunks with
  | nil =>
    intro m buf hm hbuf hhit hmiss
    have hm0 : m = 0 := Nat.le_zero.mp hm
    subst hm0
    simp only [List.take_nil, strConcat, String.append_empty] at hhit
    rw [hbuf] at hhit
    exact absurd hhit Bool.false_ne_true
  | cons c cs ih =>
    intro m buf hm hbuf hhit hmiss
    cases m with
    | zero =>
      simp only [List.take_zero, strConcat, String.append_empty] at hhit
      rw [hbuf] at hhit
      exact absurd hhit Bool.false_ne_true
    | succ m1 =>
      have hc1 : buf ++ strConcat ((c :: cs).take 1) = buf ++ c := by
        simp [strConcat, String.append_empty]
      cases m1 with
      | zero =>
        have hhit1 : goContains (buf ++ c) sentinel = true := by rwa [hc1] at hhit
        simp only [List.map_cons, readLoopFrom, hhit1, if_true]
        rw [hc1]
        simp
      | succ m2 =>
        have hcmiss : goContains (buf ++ c) sentinel = false := by
          have := hmiss 1 (by omega)
          rwa [hc1] at this
        simp only [List.map_cons, readLoopFrom, hcmiss, if_false]
        have hstep : ∀ k : Nat, buf ++ strConcat ((c :: cs).take (k + 1))
            = (buf ++ c) ++ strConcat (cs.take k) := by
          intro k
          simp [List.take_succ_cons, strConcat, String.append_assoc]
        rw [ih (m2 + 1) (buf ++ c) (by simpa using hm) hcmiss
          (by rw [← hstep]; exact hhit)
          (by intro j hj; rw [← hstep]; exact hmiss (j + 1) (by omega))]
        rw [hstep]
        simp

/-! ## parseXPathFilter lemmas -/

/-- A character absent from the list is never found. -/
theorem goIndexChar_eq_none (c : Char) (l : List Char) (h : c ∉ l) :
    goIndexChar c l = none := by
  induction l with
  | nil => rfl
  | cons a t ih =>
    rw [goIndexChar]
    have ha : ¬ (a == c) = true := by
      simp only [beq_iff_eq]
      intro he
      exact h (he ▸ List.mem_cons_self a t)
    rw [if_neg ha, ih (fun hm => h (List.mem_cons_of_mem a hm))]
    rfl

/-- Trimming only removes characters: membership is preserved backwards. -/
theorem mem_of_cutsetTrim (cutset : List Char) (s : List Char) (c : Char)
    (h : c ∈ cutsetTrim cutset s) : c ∈ s := by
  simp only [cutsetTrim, List.mem_reverse] at h
  have h1 := (List.dropWhile_sublist (l := (s.dropWhile (· ∈ cutset)).reverse)
    (p := (· ∈ cutset))).mem h
  rw [List.mem_reverse] at h1
  exact (List.dropWhile_sublist (l := s) (p := (· ∈ cutset))).mem h1

/-- A filter string with no `[` character always takes the
    `"no predicate found in filter"` branch. -/
theorem parse_no_bracket (s : String) (h : '[' ∉ s.toList) :
    parseXPathFilter s = .error "no predicate found in filter" := by
  have hf : '[' ∉ cutsetTrim ['/', ' '] s.toList :=
    fun hc => h (mem_of_cutsetTrim _ _ _ hc)
  have hidx : goIndexChar '[' (cutsetTrim ['/', ' '] s.toList) = none :=
    goIndexChar_eq_none _ _ hf
  simp only [parseXPathFilter, hidx]

/-! ## Further helper lemmas -/

/-- Every list is a prefix of itself. -/
theorem listStartsWith_self (l : List Char) : listStartsWith l l = true := by
  induction l with
  | nil => simp [listStartsWith]
  | cons a as ih => rw [listStartsWith, Bool.and_eq_true]; exact ⟨by simp, ih⟩

/-- Appending a string makes it a suffix. -/
theorem goHasSuffix_append_self (s t : String) : goHasSuffix (s ++ t) t = true := by
  simp only [goHasSuffix, String.toList, String.data_append, List.reverse_append]
  exact listStartsWith_append _ _ _ (listStartsWith_self _)

/-- Whether a session-layer step returned a typed error value to the caller. -/
def StepRes.isTypedErr : StepRes → Bool
  | .err _ => true
  | _ => false

set_option maxRecDepth 8000 in
/-- The hello payload already contains the sentinel, so `Run` sends it
    unchanged. -/
theorem runPayload_helloPayload : runPayload helloPayload = helloPayload := rfl

set_option maxRecDepth 8000 in
/-- Both hello texts are hello envelopes. -/
theorem hello_texts_are_hellos :
    goContains helloMsg "<hello" = true ∧ goContains helloPayload "<hello" = true :=
  ⟨rfl, rfl⟩

/-! ## Claim C5 -/

/-- C5: the "no predicate found in filter" error is returned for every filter
    string containing no bracket; but on `"[start-with(x,'y')]"`, whose path
    portion before the bracket is empty, parsing succeeds with path `[""]`
    instead of returning "empty path" — `strings.Split` never yields an empty
    slice, so the `len(path) == 0` guard is dead code. -/
theorem c5_parse_error_conditions :
    (∀ s : String, '[' ∉ s.toList →
      parseXPathFilter s = .error "no predicate found in filter") ∧
    parseXPathFilter "[start-with(x,'y')]" = .ok (["x", "y"], [""]) :=
  ⟨fun s h => parse_no_bracket s h, rfl⟩

/-- C5 witness: the spec's own example `"/a/b/c"` takes the
    "no predicate found" branch. -/
theorem c5_parse_error_conditions_witness :
    ('[' ∉ "/a/b/c".toList) ∧
    parseXPathFilter "/a/b/c" = .error "no predicate found in filter" :=
  ⟨by decide, c5_parse_error_conditions.1 "/a/b/c" (by decide)⟩

/-! ## Claim C3 -/

/-- C3 counterexample: with the non-start-with predicate `[foo]` on a document
    holding one candidate `b` subtree, the filter engine does not terminate
    normally with all candidates dropped — it panics (index out of range on
    `predicate[1]`), modelled as `none`. -/
theorem c3_counterexample :
    enhancedFilter (docTokens "r" "b" [[("x", "1")]]) "/a/b[foo]" = none := rfl

/-- C3 amended: a predicate that is not of the start-with form parses
    successfully as one opaque term, but `enhancedFilter` then hits the Go
    panic `predicate[1]` (index out of range) before reading any token, for
    every document. -/
theorem c3_opaque_predicate_panics (filter : String) (pred path1 : List String)
    (tokens : List XmlToken)
    (hp : parseXPathFilter filter = .ok (pred, path1)) (hlen : pred.length = 1) :
    enhancedFilter tokens filter = none := by
  simp only [enhancedFilter, hp]
  obtain ⟨a, rfl⟩ : ∃ a, pred = [a] := by
    cases pred with
    | nil => simp at hlen
    | cons a t =>
      cases t with
      | nil => exact ⟨a, rfl⟩
      | cons b u => simp at hlen
  cases hl : path1.getLast? <;> simp

/-- C3 witness: the opaque predicate `[foo]` parses as a one-element
    predicate, and filtering any concrete document with it panics. -/
theorem c3_opaque_predicate_panics_witness :
    parseXPathFilter "/a/b[foo]" = .ok (["foo"], ["a", "b"]) ∧
    enhancedFilter [XmlToken.start "a" [], XmlToken.close "a"] "/a/b[foo]" = none :=
  ⟨rfl, c3_opaque_predicate_panics "/a/b[foo]" ["foo"] ["a", "b"] _ rfl rfl⟩

/-! ## Claim C2 -/

/-- C2 counterexample: with reply `"<a>x</a>"` and the unparsable filter
    `"/a/b/c"`, the program's output is the empty string, not the reply. -/
theorem c2_counterexample :
    finalOutput "<a>x</a>" [] "/a/b/c" = some "" ∧
    ¬ finalOutput "<a>x</a>" [] "/a/b/c" = some "<a>x</a>" :=
  ⟨rfl, by decide⟩

/-- C2 amended: when a non-empty filter fails to parse, `enhancedFilter`
    prints the error and returns `""`, and `main` overwrites the reply with
    that empty string — the unfiltered reply is lost. -/
theorem c2_parse_failure_blanks_output (reply : String) (tokens : List XmlToken)
    (filter e : String) (hne : ¬ filter = "")
    (hp : parseXPathFilter filter = .error e) :
    finalOutput reply tokens filter = some "" := by
  simp only [finalOutput, if_neg hne, enhancedFilter, hp]

/-- C2 witness: a concrete reply is replaced by the empty output. -/
theorem c2_parse_failure_blanks_output_witness :
    finalOutput "<rpc-reply><data/></rpc-reply>" [] "/a/b/c" = some "" :=
  c2_parse_failure_blanks_output "<rpc-reply><data/></rpc-reply>" [] "/a/b/c"
    "no predicate found in filter" (by decide) rfl

/-! ## Claim C7 -/

/-- C7 counterexample: a payload containing the sentinel at its start only is
    sent unchanged and is NOT terminated by the sentinel — the substring
    check is not a suffix check. -/
theorem c7_counterexample :
    runPayload "]]>]]>x" = "]]>]]>x" ∧ goHasSuffix "]]>]]>x" sentinel = false :=
  ⟨rfl, rfl⟩

/-- C7 amended: `Run` writes exactly `runPayload arg`; when the substring
    check shows the sentinel absent it appends it exactly once (the sent
    payload then ends with the sentinel), and when the payload already
    contains the sentinel anywhere it is sent unchanged (so one already
    ending in the sentinel is never duplicated, but one containing it only
    mid-string is not sentinel-terminated). -/
theorem c7_sentinel_handling (arg : String) (w : Wire) :
    (RunM arg w).2.writes = w.writes ++ [runPayload arg] ∧
    (goContains arg sentinel = false →
      runPayload arg = arg ++ sentinel ∧ goHasSuffix (runPayload arg) sentinel = true) ∧
    (goContains arg sentinel = true → runPayload arg = arg) := by
  refine ⟨?_, ?_, ?_⟩
  · rcases h : readLoopFrom w.input "" with ⟨r, rest⟩
    cases r <;> simp [RunM, h]
  · intro h
    refine ⟨by simp [runPayload, h], ?_⟩
    simp only [runPayload, h, if_false]
    exact goHasSuffix_append_self arg sentinel
  · intro h
    simp [runPayload, h]

/-- C7 witness: a bare RPC gets one sentinel appended; one already ending in
    the sentinel is sent unchanged. -/
theorem c7_sentinel_handling_witness :
    runPayload "<rpc/>" = "<rpc/>" ++ sentinel ∧ runPayload "<rpc/>]]>]]>" = "<rpc/>]]>]]>" :=
  ⟨((c7_sentinel_handling "<rpc/>" ⟨[], []⟩).2.1 (by decide)).1,
   (c7_sentinel_handling "<rpc/>]]>]]>" ⟨[], []⟩).2.2 (by decide)⟩

/-! ## Claim C10 -/

/-- C10: whatever timeout the caller configured, `validateNode` overwrites it
    with 30 before `Connect` builds the ssh config, so the config handed to
    `ssh.Dial` always carries timeout 30 (and the caller's username). -/
theorem c10_dial_timeout_30 (e e1 : Endpoint) (hv : validateNode e = .ok e1) :
    buildConfig e1 = { user := e.username, timeout := 30 } := by
  simp only [validateNode] at hv
  cases hip : validateIpAddress e.ip with
  | error m => rw [hip] at hv; simp at hv
  | ok u =>
    rw [hip] at hv
    cases hport : goAtoi e.port with
    | none =>
      rw [hport] at hv
      simp only [Except.ok.injEq] at hv
      subst hv
      rfl
    | some n =>
      rw [hport] at hv
      simp only [Except.ok.injEq] at hv
      subst hv
      rfl

/-- C10 witness: the caller in `runNetconfClient` sets timeout 10; the dial
    config still carries 30. -/
theorem c10_dial_timeout_30_witness :
    buildConfig ⟨"10.10.10.10", "admin", "pw", "", "830", 30, ""⟩
      = { user := "admin", timeout := 30 } :=
  c10_dial_timeout_30 ⟨"10.10.10.10", "admin", "pw", "", "830", 10, ""⟩ _ rfl

/-! ## Claim C4 -/

/-- C4 counterexample: a non-EOF read fault does not surface a typed error
    to the caller — `Run` hits `log.Fatalf` (process termination, `fatal`). -/
theorem c4_counterexample :
    (RunM "<rpc/>" ⟨[ReadEvent.fault], []⟩).1 = RunResult.fatal ∧
    RunResult.isTypedErr (RunM "<rpc/>" ⟨[ReadEvent.fault], []⟩).1 = false :=
  ⟨rfl, rfl⟩

/-- C4 amended: end-of-stream before any sentinel yields the partial text as
    a normal result; a non-EOF read fault terminates the process via
    `log.Fatalf` instead of returning a typed error. -/
theorem c4_eof_partial_fault_fatal (arg : String) (ws : List String)
    (chunks : List String) (rest : List ReadEvent)
    (h : goContains (strConcat chunks) sentinel = false) :
    RunM arg ⟨chunks.map ReadEvent.chunk, ws⟩
      = (RunResult.ok (strConcat chunks), ⟨[], ws ++ [runPayload arg]⟩) ∧
    RunM arg ⟨chunks.map ReadEvent.chunk ++ ReadEvent.fault :: rest, ws⟩
      = (RunResult.fatal, ⟨rest, ws ++ [runPayload arg]⟩) := by
  have h' : goContains ("" ++ strConcat chunks) sentinel = false := by
    rwa [String.empty_append]
  constructor
  · simp only [RunM]
    rw [readLoop_no_hit chunks "" h', String.empty_append]
  · simp only [RunM]
    rw [readLoop_fault chunks rest "" h']

/-- C4 witness: a stream that closes after two sentinel-free chunks yields
    their concatenation as a normal result; a faulting stream is fatal. -/
theorem c4_eof_partial_fault_fatal_witness :
    RunM "<rpc/>" ⟨[ReadEvent.chunk "<rpc-reply>", ReadEvent.chunk "<ok/>"], []⟩
      = (RunResult.ok "<rpc-reply><ok/>", ⟨[], ["<rpc/>]]>]]>"]⟩) ∧
    RunM "<rpc/>" ⟨[ReadEvent.chunk "<rpc-reply>", ReadEvent.fault], []⟩
      = (RunResult.fatal, ⟨[], ["<rpc/>]]>]]>"]⟩) :=
  ⟨(c4_eof_partial_fault_fatal "<rpc/>" [] ["<rpc-reply>", "<ok/>"] [] (by decide)).1,
   (c4_eof_partial_fault_fatal "<rpc/>" [] ["<rpc-reply>"] [] (by decide)).2⟩

/-! ## Claim C8 -/

/-- C8: `Run`'s read loop accumulates chunks, checks the whole buffer after
    each chunk, stops at the chunk on which the sentinel first appears (also
    when it is split across reads), and returns the accumulated text
    verbatim, sentinel included. -/
theorem c8_stops_at_first_sentinel (arg : String) (ws : List String)
    (chunks : List String) (m : Nat)
    (hm : m ≤ chunks.length)
    (hhit : goContains (strConcat (chunks.take m)) sentinel = true)
    (hmiss : ∀ j, j < m → goContains (strConcat (chunks.take j)) sentinel = false) :
    RunM arg ⟨chunks.map ReadEvent.chunk, ws⟩
      = (RunResult.ok (strConcat (chunks.take m)),
         ⟨(chunks.map ReadEvent.chunk).drop m, ws ++ [runPayload arg]⟩) := by
  simp only [RunM]
  rw [readLoop_first_hit chunks m "" hm rfl
    (by rwa [String.empty_append])
    (fun j hj => by rw [String.empty_append]; exact hmiss j hj)]
  rw [String.empty_append]

/-- C8 witness: the sentinel split across two reads (`"abc]]>]"` then
    `"]>def"`) is detected exactly when complete, and the reply is returned
    verbatim including the sentinel and the bytes after it. -/
theorem c8_stops_at_first_sentinel_witness :
    RunM "<r/>" ⟨[ReadEvent.chunk "abc]]>]", ReadEvent.chunk "]>def"], []⟩
      = (RunResult.ok "abc]]>]]>def", ⟨[], ["<r/>]]>]]>"]⟩) ∧
    goContains "abc]]>]]>def" sentinel = true :=
  ⟨c8_stops_at_first_sentinel "<r/>" [] ["abc]]>]", "]>def"] 2 (by decide) (by decide)
     (by decide),
   by decide⟩

/-! ## Claim C6 -/

/-- C6 counterexample: on a valid node with the subsystem request refused,
    `Connect` does not return a typed error — it is `log.Fatalf`. -/
theorem c6_counterexample :
    Connect ⟨"1.2.3.4", "u", "p", "", "830", 10, ""⟩ ⟨none, none, true⟩ ⟨[], []⟩
      = StepRes.fatal ∧
    StepRes.isTypedErr
      (Connect ⟨"1.2.3.4", "u", "p", "", "830", 10, ""⟩ ⟨none, none, true⟩ ⟨[], []⟩)
      = false :=
  ⟨rfl, rfl⟩

/-- C6 amended: a dial (or authentication) failure makes `Connect` return a
    typed error whose message contains `host:port`; a refusal of the netconf
    subsystem request terminates the process via `log.Fatalf` instead of
    returning a `ProtocolError`. -/
theorem c6_connect_failure_modes (e e1 : Endpoint) (p : SshParams) (w : Wire) (m : String)
    (hv : validateNode e = .ok e1) :
    (p.dialErr = some m →
      Connect e p w = .err (e1.ip ++ ":" ++ e1.port ++ " - " ++ m) ∧
      goContains (e1.ip ++ ":" ++ e1.port ++ " - " ++ m) (e1.ip ++ ":" ++ e1.port) = true) ∧
    (p.dialErr = none → p.newSessionErr = none → p.subsysRefused = true →
      Connect e p w = .fatal) := by
  constructor
  · intro hd
    refine ⟨by simp only [Connect, hv, hd], ?_⟩
    have := goContains_append_self (e1.ip ++ ":" ++ e1.port) (" - " ++ m)
    simpa [String.append_assoc] using this
  · intro hd hn hs
    simp only [Connect, hv, hd, cliLogin, hn, hs, if_true]

/-- C6 witness: a refused dial returns the typed `host:port`-prefixed error;
    a refused subsystem request is fatal. -/
theorem c6_connect_failure_modes_witness :
    Connect ⟨"10.10.10.10", "admin", "pw", "", "830", 10, ""⟩
        ⟨some "connect: connection refused", none, false⟩ ⟨[], []⟩
      = StepRes.err "10.10.10.10:830 - connect: connection refused" ∧
    Connect ⟨"10.10.10.10", "admin", "pw", "", "830", 10, ""⟩ ⟨none, none, true⟩ ⟨[], []⟩
      = StepRes.fatal :=
  ⟨((c6_connect_failure_modes ⟨"10.10.10.10", "admin", "pw", "", "830", 10, ""⟩
      ⟨"10.10.10.10", "admin", "pw", "", "830", 30, ""⟩ _ _ "connect: connection refused"
      rfl).1 rfl).1,
   (c6_connect_failure_modes ⟨"10.10.10.10", "admin", "pw", "", "830", 10, ""⟩
      ⟨"10.10.10.10", "admin", "pw", "", "830", 30, ""⟩ _ _ "x" rfl).2 rfl rfl rfl⟩

/-! ## Claim C9 -/

/-- C9: a successful `Connect` writes the hello envelope twice — the raw
    `helloMsg` inside `cliLogin`, whose sentinel-terminated read is stored
    verbatim as `Capabilities`, and `helloPayload` via `Run` (sent unchanged
    since it already contains the sentinel), whose read result `r2` is
    discarded — performing exactly two framed reads before returning. -/
theorem c9_connect_two_hellos (e e1 : Endpoint) (p : SshParams) (w : Wire)
    (caps r2 : String) (rest1 rest2 : List ReadEvent)
    (hv : validateNode e = .ok e1)
    (hd : p.dialErr = none) (hn : p.newSessionErr = none) (hs : p.subsysRefused = false)
    (hr1 : readLoopFrom w.input "" = (.got caps, rest1))
    (hr2 : readLoopFrom rest1 "" = (.got r2, rest2)) :
    Connect e p w = .ok { e1 with capabilities := caps }
      ⟨rest2, w.writes ++ [helloMsg, helloPayload]⟩ ∧
    goContains helloMsg "<hello" = true ∧ goContains helloPayload "<hello" = true := by
  refine ⟨?_, hello_texts_are_hellos⟩
  simp only [Connect, hv, hd, cliLogin, hn, hs, if_false, hr1]
  simp only [RunM, runPayload_helloPayload]
  simp only [Bool.false_eq_true, if_false]
  rw [hr2]
  simp [List.append_assoc]

set_option maxRecDepth 8000 in
/-- C9 witness: concrete two-chunk stream; the capability record is the first
    framed read verbatim, the second read is discarded, and both hellos are
    on the wire in order. -/
theorem c9_connect_two_hellos_witness :
    Connect ⟨"10.10.10.10", "admin", "pw", "", "830", 10, ""⟩ ⟨none, none, false⟩
        ⟨[ReadEvent.chunk "caps]]>]]>", ReadEvent.chunk "ok]]>]]>"], []⟩
      = StepRes.ok ⟨"10.10.10.10", "admin", "pw", "", "830", 30, "caps]]>]]>"⟩
          ⟨[], [helloMsg, helloPayload]⟩ :=
  c9_connect_two_hellos ⟨"10.10.10.10", "admin", "pw", "", "830", 10, ""⟩
    ⟨"10.10.10.10", "admin", "pw", "", "830", 30, ""⟩ ⟨none, none, false⟩
    ⟨[ReadEvent.chunk "caps]]>]]>", ReadEvent.chunk "ok]]>]]>"], []⟩
    "caps]]>]]>" "ok]]>]]>" [ReadEvent.chunk "ok]]>]]>"] []
    rfl rfl rfl rfl rfl rfl |>.1

/-! ## Claim C1 -/

set_option maxRecDepth 8000 in
/-- C1 counterexample: predicate field `name`, literal `'1'`, and a candidate
    `ch` subtree whose direct child `name` has value `"10"` (which starts
    with `"1"`): the claim requires the subtree to be kept, but the code
    consults only elements named `index` and drops it — the output contains
    neither the subtree nor its text. -/
theorem c1_counterexample :
    enhancedFilter (docTokens "root" "ch" [[("name", "10")]])
        "/root/ch[start-with(name,'1')]" = some "<root></root>" ∧
    goContains "<root></root>" "10" = false :=
  ⟨rfl, rfl⟩

/-- C1 amended: the engine ignores the parsed predicate field name `f`
    entirely (it is parsed but never read); on any wrapper document of
    candidate subtrees, a subtree is kept iff one of its elements is
    literally named `index` and is immediately followed by character data
    starting with the literal.  The conclusion does not depend on `f`. -/
theorem c1_keeps_by_hardcoded_index (filter f target lit root : String)
    (path1 : List String) (chans : List (List (String × String)))
    (hp : parseXPathFilter filter = .ok ([f, lit], path1))
    (hlast : path1.getLast? = some target)
    (hroot : ¬ root = target) :
    enhancedFilter (docTokens root target chans) filter =
      some (formatXML ("<" ++ root ++ ">" ++
        strConcat ((chans.filter (keepPred lit)).map (fun c => renderChan target c ++ "\n")) ++
        "</" ++ root ++ ">\n")) := by
  simp only [enhancedFilter, hp, hlast]
  simp only [List.get?]
  simp only [runEngine, engine_on_docTokens root target lit chans hroot]

set_option maxRecDepth 8000 in
/-- C1 witness: with parsed field name `foo` (not `index`), the kept subtrees
    are exactly those whose `index` child starts with the literal. -/
theorem c1_keeps_by_hardcoded_index_witness :
    enhancedFilter (docTokens "data" "ch" [[("index", "10115-a")], [("index", "20000-b")]])
        "/data/ch[start-with(foo,'10115')]"
      = some "<data><ch><index>10115-a</index></ch>\n</data>" := by
  rw [c1_keeps_by_hardcoded_index "/data/ch[start-with(foo,'10115')]" "foo" "ch" "10115"
    "data" ["data", "ch"] [[("index", "10115-a")], [("index", "20000-b")]] rfl rfl
    (by decide)]
  rfl
